import Mathlib

/-!
Verification development for `medpy/graphcut/parse.py` (module
`medpy.graphcut.parse`), which contains two functions:

* `apply_mapping(label_image, mapping)` — applies a region-id → source/sink
  mapping to an n-dimensional label image, producing a boolean mask;
* `bk_mfmc_parse(output)` — parses the textual output of the
  Boykov–Kolmogorov max-flow/min-cut solver into `(flow, {node_id : code})`.

Strings are embedded as `List Char`.  The Python string primitives the code
uses (`str.strip`, `str.find`, slicing with possibly negative indices,
`str.split('\n')`, `int(...)`) are embedded below, faithful to Python
semantics on the inputs this module sees (ASCII text; `int` accepts
surrounding whitespace, an optional sign and a non-empty run of decimal
digits).
-/

/-- Python `str.strip()`: remove leading and trailing whitespace. -/
def pyStrip (s : List Char) : List Char :=
  ((s.dropWhile Char.isWhitespace).reverse.dropWhile Char.isWhitespace).reverse

/-- Index of the first occurrence of `c`, if any (0-based). -/
def findEq (c : Char) : List Char → Option Nat
  | [] => none
  | x :: xs => if x = c then some 0 else (findEq c xs).map (· + 1)

/-- Python `str.find(c)`: first index of `c`, or `-1` when absent. -/
def pyFind (s : List Char) (c : Char) : Int :=
  match findEq c s with
  | some i => (i : Int)
  | none => -1

/-- Python slice `s[i:]`, including the negative-index and clamping rules. -/
def pySliceFrom (s : List Char) (i : Int) : List Char :=
  if i < 0 then s.drop (s.length - (-i).toNat) else s.drop i.toNat

/-- Python slice `s[:i]`, including the negative-index and clamping rules. -/
def pySliceTo (s : List Char) (i : Int) : List Char :=
  if i < 0 then s.take (s.length - (-i).toNat) else s.take i.toNat

/-- Python `str.split(sep)` for a single-character separator: keeps empty
fields and always returns at least one (possibly empty) field. -/
def splitOnChar (sep : Char) : List Char → List (List Char)
  | [] => [[]]
  | c :: cs =>
    if c = sep then [] :: splitOnChar sep cs
    else
      match splitOnChar sep cs with
      | [] => [[c]]
      | l :: ls => (c :: l) :: ls

/-- Value of a run of decimal digits (`none` if empty or not all digits). -/
def parseDigits (l : List Char) : Option Nat :=
  if l.isEmpty then none
  else if l.all Char.isDigit then
    some (l.foldl (fun a c => 10 * a + (c.toNat - 48)) 0)
  else none

/-- Python `int(s)` on a decimal string: strip surrounding whitespace, accept
an optional `+`/`-` sign followed by at least one digit; `none` models the
`ValueError` Python raises otherwise. -/
def pyInt (s : List Char) : Option Int :=
  match pyStrip s with
  | [] => none
  | c :: rest =>
    if c = '-' then (parseDigits rest).map (fun n => -(n : Int))
    else if c = '+' then (parseDigits rest).map (fun n => (n : Int))
    else (parseDigits (c :: rest)).map (fun n => (n : Int))

/-!
## Sentinel markers

`bk_mfmc_parse` lives in a module importing
`from .generate import __BK_MFMC_SOURCE_MARKER, __BK_MFMC_SINK_MARKER`.
-/

/-- Modelled from the spec: the sentinel `__BK_MFMC_SOURCE_MARKER` is defined
in `medpy.graphcut.generate`, which is not among the sources here; the spec
fixes SOURCE = 0 (section 8: "with SOURCE=0, SINK=1"). -/
def BK_MFMC_SOURCE_MARKER : Int := 0

/-- Modelled from the spec: the sentinel `__BK_MFMC_SINK_MARKER` is defined
in `medpy.graphcut.generate`, which is not among the sources here; the spec
fixes SINK = 1 (section 8: "with SOURCE=0, SINK=1"). -/
def BK_MFMC_SINK_MARKER : Int := 1

/-!
## The node mapping

A Python `dict` built by repeated assignment `nodes[k] = v`: a key is updated
in place when present, appended otherwise.  Keys are unique by construction.
-/

/-- The `{node_id : code}` dictionary: an insertion-ordered association list
with unique keys. -/
abbrev NodeMap := List (Int × Int)

/-- `m[k]` / `k in m`: value of key `k`, if present. -/
def lookupNode : NodeMap → Int → Option Int
  | [], _ => none
  | e :: m, k => if e.1 = k then some e.2 else lookupNode m k

/-- `m[k] = v`: replace the value of an existing key in place, else append. -/
def updateNode : NodeMap → Int → Int → NodeMap
  | [], k, v => [(k, v)]
  | e :: m, k, v => if e.1 = k then (k, v) :: m else e :: updateNode m k v

/-!
## `bk_mfmc_parse`

```python
lines = output.split('\n')
flow = int(lines[0][lines[0].find('=') + 1:])
nodes = {}
for line in lines[1:]:
    line = line.strip()
    if 0 == len(line) or '#' == line[0]: continue
    nodes[int(line[:line.find('=')])] = int(line[line.find('=') + 1:])
return (flow, nodes)
```

Any `ValueError` raised by `int()` is re-raised as
`ArgumentError('Maleformed results argument: ...', e)` quoting the message of
the underlying failure.
-/

/-- The `ArgumentError` ("maleformed results") raised by `bk_mfmc_parse`: it
wraps the `ValueError` of the failing `int()` call, whose message quotes the
offending literal; we carry that literal. -/
inductive PErr
  | malformed (content : List Char)
deriving DecidableEq

/-- `int(s)` as performed inside the parser: a Python `ValueError` becomes the
wrapping `ArgumentError` carrying the offending literal. -/
def pyIntE (s : List Char) : Except PErr Int :=
  match pyInt s with
  | some n => .ok n
  | none => .error (.malformed s)

/-- The loop over `lines[1:]` of `bk_mfmc_parse`.  Python evaluates the
right-hand side `int(line[line.find('=') + 1:])` before the key expression
`int(line[:line.find('=')])`, so the value field is parsed first. -/
def parseNodeLines : List (List Char) → NodeMap → Except PErr NodeMap
  | [], nodes => .ok nodes
  | l :: rest, nodes =>
    if (pyStrip l).isEmpty || (pyStrip l).head? == some '#' then
      parseNodeLines rest nodes
    else do
      let v ← pyIntE (pySliceFrom (pyStrip l) (pyFind (pyStrip l) '=' + 1))
      let k ← pyIntE (pySliceTo (pyStrip l) (pyFind (pyStrip l) '='))
      parseNodeLines rest (updateNode nodes k v)

/-- `bk_mfmc_parse(output)`.  `split` always returns at least one line, so
`lines[0]` is total; `headD` only defaults on that unreachable case. -/
def bk_mfmc_parse (output : List Char) : Except PErr (Int × NodeMap) := do
  let flow ← pyIntE (pySliceFrom ((splitOnChar '\n' output).headD [])
    (pyFind ((splitOnChar '\n' output).headD []) '=' + 1))
  let nodes ← parseNodeLines (splitOnChar '\n' output).tail []
  return (flow, nodes)

/-!
## Logging wrapper

`bk_mfmc_parse` first calls `logger.info('Parsing results...')` and, on
success, `logger.debug(...)` with the flow, the node count, and the counts of
SOURCE- and SINK-affiliated nodes.  The logger is the only state the function
touches; we model it as an explicit log the call appends to.
-/

/-- A diagnostic record: the `info` banner, or the `debug` record with the
data the source interpolates into its format string. -/
inductive LogMsg
  | info
  | debug (flow : Int) (nnodes nsource nsink : Nat)
deriving DecidableEq

/-- `bk_mfmc_parse` together with its logging side channel: the result plus
the log after the call. -/
def bk_mfmc_parse_logged (output : List Char) (log : List LogMsg) :
    Except PErr (Int × NodeMap) × List LogMsg :=
  let r := bk_mfmc_parse output
  (r,
    match r with
    | .ok (flow, nodes) =>
        log ++ [LogMsg.info,
          LogMsg.debug flow nodes.length
            ((nodes.map Prod.snd).count BK_MFMC_SOURCE_MARKER)
            ((nodes.map Prod.snd).count BK_MFMC_SINK_MARKER)]
    | .error _ => log ++ [LogMsg.info])

/-!
## `apply_mapping`

```python
label_image = scipy.array(label_image)   # fresh copy of the caller's image
rav = label_image.ravel()                # view of the copy, row-major
for i in range(len(rav)):
    if not rav[i] in mapping:
        raise ArgumentError('No conversion for region id {} ...'.format(rav[i]))
    rav[i] = mapping[rav[i]]
return rav.reshape(label_image.shape).astype(scipy.bool_)
```

An n-dimensional array is embedded as its shape plus its row-major flat data
(`ravel`/`reshape` then act on the flat data alone).  `scipy.array` copies, so
the loop's writes target the copy; the loop is embedded as a zipper over the
copy: `done` holds the already overwritten prefix, `todo` the untouched tail
(the source reads `rav[i]` only at the current index, never behind it).  The
caller's buffer is threaded through unchanged-by-the-code as `caller`, so that
the embedding states where every write lands.  `astype(scipy.bool_)` maps an
integer to `True` exactly when it is nonzero.
-/

/-- An n-dimensional integer array: shape and row-major flat data. -/
structure NDImage where
  shape : List Nat
  data : List Int
deriving DecidableEq

/-- An n-dimensional boolean array: shape and row-major flat data. -/
structure BoolImage where
  shape : List Nat
  data : List Bool
deriving DecidableEq

/-- The in-place loop of `apply_mapping` over `rav` (the flat copy): on the
first region id without an entry in `mapping` it raises, carrying that id;
otherwise it overwrites the element with its mapped value.  `caller` is the
caller's buffer, which no iteration writes to. -/
def applyLoop (mapping : NodeMap) (caller : List Int) :
    List Int → List Int → Except Int (List Int) × List Int
  | done, [] => (.ok done, caller)
  | done, x :: todo =>
    match lookupNode mapping x with
    | none => (.error x, caller)
    | some v => applyLoop mapping caller (done ++ [v]) todo

/-- `apply_mapping(label_image, mapping)`: first component the returned mask
(or the raised error carrying the unmapped region id), second component the
caller's image after the call. -/
def apply_mapping (label_image : NDImage) (mapping : NodeMap) :
    Except Int BoolImage × NDImage :=
  let r := applyLoop mapping label_image.data [] label_image.data
  (r.1.map (fun d =>
      { shape := label_image.shape, data := d.map (fun x => x != 0) }),
   { shape := label_image.shape, data := r.2 })

/-!
## Canonical renderings of solver outputs

To quantify over well-formed solver outputs we render them: a decimal printer
for integers, an `id=code` entry line, the `flow=F` line 0, and the join of a
line list with newlines.  These are spec-side constructions used only to state
theorems; `pyInt` below is proved to invert the printer.
-/

/-- The decimal digit characters. -/
def digChar : Nat → Char
  | 0 => '0'
  | 1 => '1'
  | 2 => '2'
  | 3 => '3'
  | 4 => '4'
  | 5 => '5'
  | 6 => '6'
  | 7 => '7'
  | 8 => '8'
  | 9 => '9'
  | _ => '*'

/-- Most-significant-first decimal digits of `n`, with explicit fuel (any
fuel above `n` suffices). -/
def natDigits : Nat → Nat → List Char
  | 0, _ => []
  | fuel + 1, n =>
    if n < 10 then [digChar n]
    else natDigits fuel (n / 10) ++ [digChar (n % 10)]

/-- Decimal rendering of a natural number. -/
def reprNat (n : Nat) : List Char := natDigits (n + 1) n

/-- Decimal rendering of an integer (a `-` sign for negatives). -/
def reprInt : Int → List Char
  | .ofNat n => reprNat n
  | .negSucc m => '-' :: reprNat (m + 1)

/-- A well-formed `<node_id>=<affiliation_code>` line. -/
def entryLine (k v : Int) : List Char := reprInt k ++ '=' :: reprInt v

/-- The well-formed line 0, `flow=<integer>`. -/
def flowLine (f : Int) : List Char :=
  'f' :: 'l' :: 'o' :: 'w' :: '=' :: reprInt f

/-- A line after line 0: either a raw (blank/comment) line or an entry. -/
def renderItem : List Char ⊕ Int × Int → List Char
  | .inl raw => raw
  | .inr e => entryLine e.1 e.2

/-- The entries among the rendered lines, in order. -/
def entriesOf (items : List (List Char ⊕ Int × Int)) : List (Int × Int) :=
  items.filterMap fun it =>
    match it with
    | .inl _ => none
    | .inr e => some e

/-- Join lines with `'\n'` separators (inverse of `split('\n')`). -/
def joinLines : List (List Char) → List Char
  | [] => []
  | [l] => l
  | l :: l' :: ls => l ++ '\n' :: joinLines (l' :: ls)

/-- A full rendered solver output: the flow line, then the given lines. -/
def renderOutput (f : Int) (items : List (List Char ⊕ Int × Int)) : List Char :=
  joinLines (flowLine f :: items.map renderItem)

/-- The skip condition of the parser's loop: the stripped line is empty or
starts with `'#'`. -/
def skipsLine (l : List Char) : Bool :=
  (pyStrip l).isEmpty || (pyStrip l).head? == some '#'

/-- Insert a list of entries into a node map, in order (as the loop does). -/
def foldEntries (acc : NodeMap) (es : List (Int × Int)) : NodeMap :=
  es.foldl (fun m e => updateNode m e.1 e.2) acc

/-- The keys of a node map, in order. -/
def nodeKeys (m : NodeMap) : List Int := m.map Prod.fst

/-!
## Helper lemmas: monadic plumbing
-/

theorem exceptBind_ok {ε α β : Type} (a : α) (f : α → Except ε β) :
    (Except.ok a : Except ε α) >>= f = f a := rfl

theorem exceptBind_error {ε α β : Type} (e : ε) (f : α → Except ε β) :
    (Except.error e : Except ε α) >>= f = .error e := rfl

theorem exceptPure {ε α : Type} (a : α) :
    (pure a : Except ε α) = .ok a := rfl

theorem pyIntE_ok {s : List Char} {n : Int} (h : pyIntE s = .ok n) :
    pyInt s = some n := by
  unfold pyIntE at h
  cases hp : pyInt s <;> rw [hp] at h
  · cases h
  · cases h
    rfl

theorem pyIntE_of_some {s : List Char} {n : Int} (h : pyInt s = some n) :
    pyIntE s = .ok n := by
  unfold pyIntE
  rw [h]

/-!
## Helper lemmas: digits and the decimal printer
-/

/-- Characters a rendered number consists of are harmless for the parser:
not whitespace, not `'#'`, not `'='`, not `'\n'`. -/
abbrev goodChar (c : Char) : Prop :=
  c.isWhitespace = false ∧ c ≠ '#' ∧ c ≠ '=' ∧ c ≠ '\n'

theorem digChar_isDigit {d : Nat} (h : d < 10) : (digChar d).isDigit = true := by
  interval_cases d <;> decide

theorem digChar_good {d : Nat} (h : d < 10) : goodChar (digChar d) := by
  interval_cases d <;> exact (by decide)

theorem digChar_not_sign {d : Nat} (h : d < 10) :
    digChar d ≠ '-' ∧ digChar d ≠ '+' := by
  interval_cases d <;> exact (by decide)

theorem digChar_toNat {d : Nat} (h : d < 10) : (digChar d).toNat - 48 = d := by
  interval_cases d <;> decide

theorem natDigits_ne_nil {fuel n : Nat} (h : 0 < fuel) :
    natDigits fuel n ≠ [] := by
  cases fuel with
  | zero => omega
  | succ f =>
    unfold natDigits
    by_cases h10 : n < 10
    · simp [h10]
    · simp [h10]

theorem natDigits_mem {fuel n : Nat} (h : n < fuel) :
    ∀ c ∈ natDigits fuel n, ∃ d, d < 10 ∧ c = digChar d := by
  induction fuel generalizing n with
  | zero => omega
  | succ f ih =>
    intro c hc
    unfold natDigits at hc
    by_cases h10 : n < 10
    · rw [if_pos h10] at hc
      simp at hc
      exact ⟨n, h10, hc⟩
    · rw [if_neg h10] at hc
      rcases List.mem_append.1 hc with h1 | h2
      · exact ih (by omega) c h1
      · simp at h2
        exact ⟨n % 10, by omega, h2⟩

theorem natDigits_foldl {fuel n : Nat} (h : n < fuel) (a : Nat) :
    (natDigits fuel n).foldl (fun a c => 10 * a + (c.toNat - 48)) a =
      a * 10 ^ (natDigits fuel n).length + n := by
  induction fuel generalizing n a with
  | zero => omega
  | succ f ih =>
    by_cases h10 : n < 10
    · rw [show natDigits (f + 1) n = [digChar n] from by rw [natDigits, if_pos h10]]
      simp [digChar_toNat h10]
      omega
    · rw [show natDigits (f + 1) n = natDigits f (n / 10) ++ [digChar (n % 10)] from by
        rw [natDigits, if_neg h10]]
      rw [List.foldl_append, ih (by omega)]
      simp only [List.foldl_cons, List.foldl_nil, List.length_append,
        List.length_cons, List.length_nil]
      rw [digChar_toNat (by omega)]
      rw [pow_succ, ← mul_assoc]
      have hdm := Nat.div_add_mod n 10
      generalize a * 10 ^ (natDigits f (n / 10)).length = x
      omega

theorem parseDigits_natDigits {fuel n : Nat} (h : n < fuel) :
    parseDigits (natDigits fuel n) = some n := by
  have hne : natDigits fuel n ≠ [] := natDigits_ne_nil (by omega)
  have hall : (natDigits fuel n).all Char.isDigit = true := by
    rw [List.all_eq_true]
    intro c hc
    obtain ⟨d, hd, rfl⟩ := natDigits_mem h c hc
    exact digChar_isDigit hd
  unfold parseDigits
  rw [if_neg (by simpa using hne), if_pos hall, natDigits_foldl h 0]
  simp

theorem parseDigits_reprNat (n : Nat) : parseDigits (reprNat n) = some n :=
  parseDigits_natDigits (Nat.lt_succ_self n)

theorem reprNat_chars {n : Nat} :
    ∀ c ∈ reprNat n, goodChar c ∧ c.isDigit = true := by
  intro c hc
  obtain ⟨d, hd, rfl⟩ := natDigits_mem (Nat.lt_succ_self n) c hc
  exact ⟨digChar_good hd, digChar_isDigit hd⟩

theorem reprNat_ne_nil (n : Nat) : reprNat n ≠ [] :=
  natDigits_ne_nil (Nat.succ_pos n)

theorem reprInt_chars {i : Int} : ∀ c ∈ reprInt i, goodChar c := by
  intro c hc
  cases i with
  | ofNat n => exact (reprNat_chars c hc).1
  | negSucc m =>
    rcases List.mem_cons.1 hc with rfl | h3
    · exact (by decide)
    · exact (reprNat_chars c h3).1

theorem reprInt_ne_nil (i : Int) : reprInt i ≠ [] := by
  cases i with
  | ofNat n => exact reprNat_ne_nil n
  | negSucc m => simp [reprInt]

/-!
## Helper lemmas: strip, find, slices
-/

theorem dropWhile_of_forall {p : Char → Bool} {l : List Char}
    (h : ∀ c ∈ l, p c = false) : l.dropWhile p = l := by
  cases l with
  | nil => rfl
  | cons c cs =>
    rw [List.dropWhile_cons, h c (by simp)]
    simp

theorem pyStrip_of_forall {l : List Char}
    (h : ∀ c ∈ l, c.isWhitespace = false) : pyStrip l = l := by
  unfold pyStrip
  rw [dropWhile_of_forall h,
    dropWhile_of_forall (fun c hc => h c (List.mem_reverse.1 hc)),
    List.reverse_reverse]

theorem pyStrip_subset {l : List Char} : ∀ c ∈ pyStrip l, c ∈ l := by
  intro c hc
  unfold pyStrip at hc
  rw [List.mem_reverse] at hc
  have h1 : c ∈ (l.dropWhile Char.isWhitespace).reverse :=
    (List.dropWhile_sublist _).subset hc
  rw [List.mem_reverse] at h1
  exact (List.dropWhile_sublist _).subset h1

theorem pyInt_of_strip_cons {s rest : List Char} {c : Char}
    (h : pyStrip s = c :: rest) :
    pyInt s =
      if c = '-' then (parseDigits rest).map (fun n => -(n : Int))
      else if c = '+' then (parseDigits rest).map (fun n => (n : Int))
      else (parseDigits (c :: rest)).map (fun n => (n : Int)) := by
  unfold pyInt
  rw [h]

theorem pyInt_reprInt (i : Int) : pyInt (reprInt i) = some i := by
  have hstrip : pyStrip (reprInt i) = reprInt i :=
    pyStrip_of_forall (fun c hc => (reprInt_chars c hc).1)
  cases i with
  | ofNat n =>
    obtain ⟨c, rest, hcr⟩ :=
      List.exists_cons_of_ne_nil (reprNat_ne_nil n)
    have hmem : c ∈ reprNat n := by rw [hcr]; simp
    obtain ⟨d, hd, rfl⟩ := natDigits_mem (Nat.lt_succ_self n) c hmem
    have hsign := digChar_not_sign hd
    rw [pyInt_of_strip_cons (hstrip.trans hcr)]
    rw [if_neg hsign.1, if_neg hsign.2, ← hcr, parseDigits_reprNat]
    rfl
  | negSucc m =>
    rw [@pyInt_of_strip_cons (reprInt (Int.negSucc m)) (reprNat (m + 1)) '-'
      hstrip]
    rw [if_pos rfl, parseDigits_reprNat]
    simp [Int.negSucc_eq]

theorem findEq_not_mem {c : Char} : ∀ {l : List Char}, c ∉ l → findEq c l = none := by
  intro l
  induction l with
  | nil => intro _; rfl
  | cons x xs ih =>
    intro h
    have hx : ¬ x = c := fun he => h (by simp [he])
    unfold findEq
    rw [if_neg hx, ih (fun hm => h (by simp [hm]))]
    rfl

theorem pyFind_not_mem {l : List Char} {c : Char} (h : c ∉ l) :
    pyFind l c = -1 := by
  unfold pyFind
  rw [findEq_not_mem h]

theorem findEq_append {c : Char} :
    ∀ {a : List Char} (b : List Char), c ∉ a →
      findEq c (a ++ c :: b) = some a.length := by
  intro a
  induction a with
  | nil => intro b _; simp [findEq]
  | cons x xs ih =>
    intro b h
    have hx : ¬ x = c := fun he => h (by simp [he])
    rw [List.cons_append]
    unfold findEq
    rw [if_neg hx, ih b (fun hm => h (by simp [hm]))]
    simp

theorem pyFind_append {a b : List Char} {c : Char} (h : c ∉ a) :
    pyFind (a ++ c :: b) c = (a.length : Int) := by
  unfold pyFind
  rw [findEq_append b h]

theorem pySliceFrom_ofNat (s : List Char) (n : Nat) :
    pySliceFrom s (n : Int) = s.drop n := by
  unfold pySliceFrom
  rw [if_neg (by omega)]
  simp

theorem pySliceTo_ofNat (s : List Char) (n : Nat) :
    pySliceTo s (n : Int) = s.take n := by
  unfold pySliceTo
  rw [if_neg (by omega)]
  simp

theorem pySliceTo_neg_one (s : List Char) : pySliceTo s (-1) = s.dropLast := by
  unfold pySliceTo
  rw [if_pos (by norm_num)]
  rw [List.dropLast_eq_take]
  norm_num

theorem drop_append_succ (a b : List Char) (c : Char) :
    (a ++ c :: b).drop (a.length + 1) = b := by
  induction a with
  | nil => simp
  | cons x xs ih => simp [ih]

/-!
## Helper lemmas: split and join
-/

theorem splitOnChar_no_sep {sep : Char} {l : List Char} (h : sep ∉ l) :
    splitOnChar sep l = [l] := by
  induction l with
  | nil => rfl
  | cons c cs ih =>
    have hc : ¬ c = sep := fun he => h (by simp [he])
    unfold splitOnChar
    rw [if_neg hc, ih (fun hm => h (by simp [hm]))]

theorem splitOnChar_append {sep : Char} {l rest : List Char} (h : sep ∉ l) :
    splitOnChar sep (l ++ sep :: rest) = l :: splitOnChar sep rest := by
  induction l with
  | nil => rw [List.nil_append, splitOnChar, if_pos rfl]
  | cons c cs ih =>
    have hc : ¬ c = sep := fun he => h (by simp [he])
    rw [List.cons_append, splitOnChar, if_neg hc,
      ih (fun hm => h (by simp [hm]))]

theorem split_joinLines :
    ∀ (ls : List (List Char)) (l : List Char),
      (∀ x ∈ l :: ls, '\n' ∉ x) →
      splitOnChar '\n' (joinLines (l :: ls)) = l :: ls := by
  intro ls
  induction ls with
  | nil =>
    intro l h
    exact splitOnChar_no_sep (h l (by simp))
  | cons l' ls ih =>
    intro l h
    rw [show joinLines (l :: l' :: ls) = l ++ '\n' :: joinLines (l' :: ls) from
      rfl]
    rw [splitOnChar_append (h l (by simp))]
    rw [ih l' (fun x hx => h x (List.mem_cons_of_mem _ hx))]

/-!
## Helper lemmas: processing a rendered line
-/

theorem entryLine_chars {k v : Int} :
    ∀ c ∈ entryLine k v, c.isWhitespace = false ∧ c ≠ '\n' := by
  intro c hc
  rcases List.mem_append.1 hc with h1 | h2
  · have hg := reprInt_chars c h1
    exact ⟨hg.1, hg.2.2.2⟩
  · rcases List.mem_cons.1 h2 with rfl | h3
    · exact ⟨by decide, by decide⟩
    · have hg := reprInt_chars c h3
      exact ⟨hg.1, hg.2.2.2⟩

theorem pyStrip_entryLine (k v : Int) : pyStrip (entryLine k v) = entryLine k v :=
  pyStrip_of_forall (fun c hc => (entryLine_chars c hc).1)

theorem eq_not_mem_reprInt (i : Int) : '=' ∉ reprInt i :=
  fun h => (reprInt_chars _ h).2.2.1 rfl

theorem entryLine_head {k v : Int} :
    ∃ c rest, entryLine k v = c :: rest ∧ c ≠ '#' := by
  obtain ⟨c, r, hcr⟩ := List.exists_cons_of_ne_nil (reprInt_ne_nil k)
  refine ⟨c, r ++ '=' :: reprInt v, ?_, ?_⟩
  · rw [show entryLine k v = reprInt k ++ '=' :: reprInt v from rfl, hcr]
    rfl
  · have : c ∈ reprInt k := by rw [hcr]; simp
    exact (reprInt_chars c this).2.1

theorem parseNodeLines_skip {raw : List Char} (h : skipsLine raw = true)
    (rest : List (List Char)) (acc : NodeMap) :
    parseNodeLines (raw :: rest) acc = parseNodeLines rest acc := by
  unfold skipsLine at h
  rw [parseNodeLines, if_pos h]

theorem parseNodeLines_entry (k v : Int) (rest : List (List Char))
    (acc : NodeMap) :
    parseNodeLines (entryLine k v :: rest) acc =
      parseNodeLines rest (updateNode acc k v) := by
  obtain ⟨c, r, hcr, hhash⟩ := entryLine_head (k := k) (v := v)
  have hcond : ((pyStrip (entryLine k v)).isEmpty ||
      (pyStrip (entryLine k v)).head? == some '#') = false := by
    rw [pyStrip_entryLine, hcr]
    simp [hhash]
  have hfind : pyFind (entryLine k v) '=' = ((reprInt k).length : Int) :=
    pyFind_append (eq_not_mem_reprInt k)
  have hvfield : pySliceFrom (pyStrip (entryLine k v))
      (pyFind (pyStrip (entryLine k v)) '=' + 1) = reprInt v := by
    rw [pyStrip_entryLine, hfind,
      show ((reprInt k).length : Int) + 1 = (((reprInt k).length + 1 : Nat) : Int)
        from by push_cast; ring,
      pySliceFrom_ofNat]
    exact drop_append_succ _ _ _
  have hkfield : pySliceTo (pyStrip (entryLine k v))
      (pyFind (pyStrip (entryLine k v)) '=') = reprInt k := by
    rw [pyStrip_entryLine, hfind, pySliceTo_ofNat]
    exact List.take_left _ _
  rw [parseNodeLines, if_neg (by simp [hcond])]
  rw [hvfield, hkfield, pyIntE_of_some (pyInt_reprInt v),
    pyIntE_of_some (pyInt_reprInt k)]
  simp only [exceptBind_ok]

theorem parse_flowLine (f : Int) :
    pyIntE (pySliceFrom (flowLine f) (pyFind (flowLine f) '=' + 1)) = .ok f := by
  have hshape : flowLine f = ['f', 'l', 'o', 'w'] ++ '=' :: reprInt f := rfl
  have hfind : pyFind (flowLine f) '=' = ((4 : Nat) : Int) := by
    rw [hshape, pyFind_append (by decide)]
    rfl
  rw [hfind, show ((4 : Nat) : Int) + 1 = ((5 : Nat) : Int) from by norm_num,
    pySliceFrom_ofNat, hshape,
    show (['f', 'l', 'o', 'w'] ++ '=' :: reprInt f).drop 5 = reprInt f from
      drop_append_succ ['f', 'l', 'o', 'w'] (reprInt f) '=']
  exact pyIntE_of_some (pyInt_reprInt f)

theorem flowLine_no_newline (f : Int) : '\n' ∉ flowLine f := by
  intro hm
  rw [show flowLine f = ['f', 'l', 'o', 'w'] ++ '=' :: reprInt f from rfl] at hm
  rcases List.mem_append.1 hm with h1 | h2
  · simp at h1
  · rcases List.mem_cons.1 h2 with he | h3
    · cases he
    · exact (reprInt_chars _ h3).2.2.2 rfl

theorem entryLine_no_newline (k v : Int) : '\n' ∉ entryLine k v :=
  fun hm => (entryLine_chars _ hm).2 rfl

theorem parseNodeLines_render :
    ∀ (items : List (List Char ⊕ Int × Int)) (acc : NodeMap),
      (∀ raw, .inl raw ∈ items → skipsLine raw = true) →
      parseNodeLines (items.map renderItem) acc =
        .ok (foldEntries acc (entriesOf items)) := by
  intro items
  induction items with
  | nil => intro acc _; rfl
  | cons it items ih =>
    intro acc hskip
    cases it with
    | inl raw =>
      rw [List.map_cons, show renderItem (.inl raw) = raw from rfl,
        parseNodeLines_skip (hskip raw (by simp)),
        ih acc (fun r hr => hskip r (by simp [hr]))]
      rfl
    | inr e =>
      rw [List.map_cons, show renderItem (.inr e) = entryLine e.1 e.2 from rfl,
        parseNodeLines_entry e.1 e.2,
        ih (updateNode acc e.1 e.2) (fun r hr => hskip r (by simp [hr]))]
      rfl

theorem bk_parse_render (f : Int) (items : List (List Char ⊕ Int × Int))
    (hskip : ∀ raw, .inl raw ∈ items → skipsLine raw = true)
    (hnl : ∀ raw, .inl raw ∈ items → '\n' ∉ raw) :
    bk_mfmc_parse (renderOutput f items) =
      .ok (f, foldEntries [] (entriesOf items)) := by
  have hlines : splitOnChar '\n' (renderOutput f items) =
      flowLine f :: items.map renderItem := by
    apply split_joinLines
    intro x hx
    rcases List.mem_cons.1 hx with rfl | hx'
    · exact flowLine_no_newline f
    · obtain ⟨it, hit, rfl⟩ := List.mem_map.1 hx'
      cases it with
      | inl raw => exact hnl raw hit
      | inr e => exact entryLine_no_newline e.1 e.2
  unfold bk_mfmc_parse
  rw [hlines,
    show (flowLine f :: items.map renderItem).headD [] = flowLine f from rfl,
    show (flowLine f :: items.map renderItem).tail = items.map renderItem from
      rfl,
    parse_flowLine, parseNodeLines_render items [] hskip]
  rfl

/-!
## Helper lemmas: the node map
-/

theorem updateNode_not_mem :
    ∀ {m : NodeMap} {k : Int} (v : Int), k ∉ nodeKeys m →
      updateNode m k v = m ++ [(k, v)] := by
  intro m
  induction m with
  | nil => intro k v _; rfl
  | cons e m ih =>
    intro k v hk
    have hne : ¬ e.1 = k := fun he => hk (by simp [nodeKeys, he])
    rw [show updateNode (e :: m) k v =
        if e.1 = k then (k, v) :: m else e :: updateNode m k v from rfl,
      if_neg hne, ih v (fun hm => hk (by simp [nodeKeys] at hm ⊢; exact .inr hm))]
    rfl

theorem foldEntries_append_of_nodup :
    ∀ (es : List (Int × Int)) (acc : NodeMap),
      (nodeKeys acc ++ es.map Prod.fst).Nodup →
      foldEntries acc es = acc ++ es := by
  intro es
  induction es with
  | nil => intro acc _; simp [foldEntries]
  | cons e es ih =>
    intro acc hnd
    obtain ⟨k, v⟩ := e
    have hk : k ∉ nodeKeys acc := by
      rw [List.nodup_append] at hnd
      exact fun hm => hnd.2.2 hm (by simp)
    have hstep : foldEntries acc ((k, v) :: es) =
        foldEntries (acc ++ [(k, v)]) es := by
      rw [show foldEntries acc ((k, v) :: es) =
          foldEntries (updateNode acc k v) es from rfl,
        updateNode_not_mem v hk]
    rw [hstep, ih (acc ++ [(k, v)]) (by
      simpa [nodeKeys, List.append_assoc] using hnd)]
    simp

theorem foldEntries_of_nodup {es : List (Int × Int)}
    (h : (es.map Prod.fst).Nodup) : foldEntries [] es = es := by
  have := foldEntries_append_of_nodup es [] (by simpa [nodeKeys] using h)
  simpa using this

theorem lookupNode_update (m : NodeMap) (k v k' : Int) :
    lookupNode (updateNode m k v) k' =
      if k' = k then some v else lookupNode m k' := by
  induction m with
  | nil =>
    by_cases h : k' = k
    · simp [updateNode, lookupNode, h]
    · have h2 : ¬ k = k' := fun he => h he.symm
      simp [updateNode, lookupNode, h, h2]
  | cons e m ih =>
    by_cases he : e.1 = k
    · rw [show updateNode (e :: m) k v =
          if e.1 = k then (k, v) :: m else e :: updateNode m k v from rfl,
        if_pos he]
      by_cases h : k' = k
      · simp [lookupNode, h]
      · have h2 : ¬ k = k' := fun hh => h hh.symm
        have hne : ¬ e.1 = k' := by rw [he]; exact h2
        simp [lookupNode, h, h2, hne]
    · rw [show updateNode (e :: m) k v =
          if e.1 = k then (k, v) :: m else e :: updateNode m k v from rfl,
        if_neg he]
      by_cases h1 : e.1 = k'
      · have h2 : ¬ k' = k := fun hh => he (h1.trans hh)
        simp [lookupNode, h1, h2]
      · simp [lookupNode, h1, ih]

theorem lookupNode_foldEntries :
    ∀ (es : List (Int × Int)) (acc : NodeMap) (k : Int),
      lookupNode (foldEntries acc es) k =
        ((es.reverse.find? (fun e => e.1 == k)).map Prod.snd).or
          (lookupNode acc k) := by
  intro es
  induction es with
  | nil => intro acc k; simp [foldEntries]
  | cons e es ih =>
    intro acc k
    rw [show foldEntries acc (e :: es) =
        foldEntries (updateNode acc e.1 e.2) es from rfl, ih,
      List.reverse_cons, List.find?_append]
    cases hf : es.reverse.find? (fun e => e.1 == k) with
    | some e' => simp [Option.or]
    | none =>
      rw [lookupNode_update]
      by_cases h : k = e.1
      · simp [List.find?, h, Option.or]
      · have h2 : ¬ e.1 = k := fun hh => h hh.symm
        have hb : (e.1 == k) = false := by simp [h2]
        simp [List.find?, Option.or, h, hb]

/-!
## Helper lemmas: the `apply_mapping` loop
-/

theorem applyLoop_caller (mapping : NodeMap) (caller : List Int) :
    ∀ (todo done : List Int), (applyLoop mapping caller done todo).2 = caller := by
  intro todo
  induction todo with
  | nil => intro done; rfl
  | cons x xs ih =>
    intro done
    rw [applyLoop]
    cases hx : lookupNode mapping x with
    | none => rfl
    | some v => exact ih (done ++ [v])

theorem applyLoop_error (mapping : NodeMap) (caller : List Int) :
    ∀ (todo done : List Int) (k : Int),
      todo.find? (fun x => (lookupNode mapping x).isNone) = some k →
      (applyLoop mapping caller done todo).1 = .error k := by
  intro todo
  induction todo with
  | nil => intro done k h; simp [List.find?] at h
  | cons x xs ih =>
    intro done k h
    cases hx : lookupNode mapping x with
    | none =>
      have hk : x = k := by simpa [List.find?, hx] using h
      subst hk
      rw [applyLoop, hx]
    | some v =>
      have h' : xs.find? (fun x => (lookupNode mapping x).isNone) = some k := by
        simpa [List.find?, hx] using h
      rw [applyLoop, hx]
      exact ih (done ++ [v]) k h'

/-!
## Helper lemmas: soundness of an accepted parse
-/

theorem parseNodeLines_ok_lines :
    ∀ (ls : List (List Char)) (acc m : NodeMap),
      parseNodeLines ls acc = .ok m →
      ∀ l ∈ ls, skipsLine l = true ∨
        ((pyInt (pySliceFrom (pyStrip l) (pyFind (pyStrip l) '=' + 1))).isSome ∧
         (pyInt (pySliceTo (pyStrip l) (pyFind (pyStrip l) '='))).isSome) := by
  intro ls
  induction ls with
  | nil => intro acc m _ l hl; simp at hl
  | cons l0 ls ih =>
    intro acc m hok l hl
    by_cases hskip : ((pyStrip l0).isEmpty || (pyStrip l0).head? == some '#') = true
    · rw [parseNodeLines, if_pos hskip] at hok
      rcases List.mem_cons.1 hl with rfl | hl'
      · exact .inl hskip
      · exact ih acc m hok l hl'
    · rw [parseNodeLines, if_neg hskip] at hok
      cases hv : pyIntE (pySliceFrom (pyStrip l0) (pyFind (pyStrip l0) '=' + 1)) with
      | error e =>
        rw [hv, exceptBind_error] at hok
        cases hok
      | ok v =>
        rw [hv] at hok
        simp only [exceptBind_ok] at hok
        cases hk : pyIntE (pySliceTo (pyStrip l0) (pyFind (pyStrip l0) '=')) with
        | error e =>
          rw [hk, exceptBind_error] at hok
          cases hok
        | ok k =>
          rw [hk] at hok
          simp only [exceptBind_ok] at hok
          rcases List.mem_cons.1 hl with rfl | hl'
          · refine .inr ⟨?_, ?_⟩
            · rw [pyIntE_ok hv]; rfl
            · rw [pyIntE_ok hk]; rfl
          · exact ih (updateNode acc k v) m hok l hl'

theorem entriesOf_map_inr (es : List (Int × Int)) :
    entriesOf (es.map Sum.inr) = es := by
  induction es with
  | nil => rfl
  | cons e es ih =>
    rw [List.map_cons,
      show entriesOf (Sum.inr e :: es.map Sum.inr) =
        e :: entriesOf (es.map Sum.inr) from rfl, ih]

/-!
## The claims
-/

/-- Claim C1 (code-bug evidence): with the sentinel values SOURCE = 0 and
SINK = 1 fixed by the spec, the mask element for a region id whose mapped
affiliation IS the SOURCE sentinel comes out `false`: `astype(scipy.bool_)`
sends the mapped value 0 to `False`, so the code computes "true iff the mapped
value is nonzero", not "true iff it equals SOURCE" as the claim and the
function's own docstring state. -/
theorem apply_mapping_source_yields_false :
    lookupNode [(1, BK_MFMC_SOURCE_MARKER)] 1 = some BK_MFMC_SOURCE_MARKER ∧
    (apply_mapping { shape := [1], data := [1] }
        [(1, BK_MFMC_SOURCE_MARKER)]).1 =
      .ok { shape := [1], data := [false] } := ⟨rfl, rfl⟩

/-- Claim C2: for every well-formed solver output — the line `flow=F`
followed by entry lines `id=code` interleaved with blank lines and lines
whose first non-whitespace character is `'#'`, with pairwise distinct ids —
the parser returns exactly `(F, {id : code, ...})`, and skipped lines
contribute no entry. -/
theorem bk_mfmc_parse_wellformed (F : Int)
    (items : List (List Char ⊕ Int × Int))
    (hskip : ∀ raw, .inl raw ∈ items → skipsLine raw = true)
    (hnl : ∀ raw, .inl raw ∈ items → '\n' ∉ raw)
    (hnd : ((entriesOf items).map Prod.fst).Nodup) :
    bk_mfmc_parse (renderOutput F items) = .ok (F, entriesOf items) := by
  rw [bk_parse_render F items hskip hnl, foldEntries_of_nodup hnd]

/-- Claim C2, witness: parsing the spec's example text yields exactly
`(12, {1:0, 2:1, 3:0})`. -/
theorem bk_mfmc_parse_wellformed_witness :
    bk_mfmc_parse (("flow=12\n1=0\n2=1\n# comment\n\n3=0").data) =
      .ok (12, [(1, 0), (2, 1), (3, 0)]) := by
  have h := bk_mfmc_parse_wellformed 12
      [Sum.inr (1, 0), Sum.inr (2, 1), Sum.inl (("# comment").data),
        Sum.inl [], Sum.inr (3, 0)]
      (by
        intro raw hraw
        simp at hraw
        rcases hraw with h1 | h1 <;> subst h1 <;> decide)
      (by
        intro raw hraw
        simp at hraw
        rcases hraw with h1 | h1 <;> subst h1 <;> decide)
      (by decide)
  exact h

/-- Claim C3: when the label image contains region ids with no entry in the
mapping, `apply_mapping` fails (no mask is returned) with an error carrying
exactly the first unmapped region id in flattening (row-major) traversal
order. -/
theorem apply_mapping_first_missing (img : NDImage) (m : NodeMap) (k : Int)
    (h : img.data.find? (fun x => (lookupNode m x).isNone) = some k) :
    (apply_mapping img m).1 = .error k := by
  have he := applyLoop_error m img.data img.data [] k h
  simp [apply_mapping, he, Except.map]

/-- Claim C3, witness: applying the mapping `{1: SOURCE}` to an image
containing region id `2` fails carrying `2`. -/
theorem apply_mapping_first_missing_witness :
    (apply_mapping { shape := [1], data := [2] }
        [(1, BK_MFMC_SOURCE_MARKER)]).1 = .error 2 :=
  apply_mapping_first_missing _ _ 2 (by decide)

/-- Claim C4: a non-blank, non-comment line among `lines[1:]` whose fields do
not both parse as integers aborts the whole parse with the malformed-input
error (which carries the offending literal of the failing `int()` call); no
partial mapping is returned since the result is an error, not a pair. -/
theorem bk_mfmc_parse_nonnumeric_fails (output l : List Char)
    (hl : l ∈ (splitOnChar '\n' output).tail)
    (hskip : skipsLine l = false)
    (hbad : pyInt (pySliceFrom (pyStrip l) (pyFind (pyStrip l) '=' + 1)) = none ∨
      pyInt (pySliceTo (pyStrip l) (pyFind (pyStrip l) '=')) = none) :
    ∃ s, bk_mfmc_parse output = .error (.malformed s) := by
  cases hres : bk_mfmc_parse output with
  | error e =>
    cases e with
    | malformed s => exact ⟨s, rfl⟩
  | ok fm =>
    exfalso
    unfold bk_mfmc_parse at hres
    cases hfl : pyIntE (pySliceFrom ((splitOnChar '\n' output).headD [])
        (pyFind ((splitOnChar '\n' output).headD []) '=' + 1)) with
    | error e =>
      rw [hfl, exceptBind_error] at hres
      cases hres
    | ok fv =>
      rw [hfl] at hres
      simp only [exceptBind_ok] at hres
      cases hnodes : parseNodeLines (splitOnChar '\n' output).tail [] with
      | error e =>
        rw [hnodes, exceptBind_error] at hres
        cases hres
      | ok nodes =>
        have hline := parseNodeLines_ok_lines _ _ _ hnodes l hl
        rcases hline with h1 | h2
        · rw [h1] at hskip
          cases hskip
        · rcases hbad with hb | hb
          · rw [hb] at h2
            simpa using h2.1
          · rw [hb] at h2
            simpa using h2.2

/-- Claim C4, witness: parsing `"flow=5\nabc\n"` fails with the
malformed-input error. -/
theorem bk_mfmc_parse_nonnumeric_fails_witness :
    ∃ s, bk_mfmc_parse (("flow=5\nabc\n").data) = .error (.malformed s) :=
  bk_mfmc_parse_nonnumeric_fails (("flow=5\nabc\n").data) (("abc").data)
    (by decide) (by decide) (.inl (by decide))

/-- Claim C5, counterexample: the single-line input `"5"` has no `=` on its
required line 0, yet the parser accepts it and returns `(5, {})` instead of
failing — `find` returns `-1`, so the slice after `=` is the whole line,
which is numeric. -/
theorem bk_mfmc_parse_no_eq_accepted :
    bk_mfmc_parse (("5").data) = .ok (5, []) := rfl

/-- Claim C5 (amended): a required line missing `=` is not rejected as such.
On line 0 the whole line is parsed as the flow; on a later non-skipped line
the stripped line minus its last character is parsed as the node id and the
whole stripped line as the code; the malformed-input error occurs only when
one of those substrings fails integer parsing. -/
theorem bk_mfmc_parse_missing_eq (l0 l1 : List Char) (f k v : Int)
    (h0 : '=' ∉ l0) (h0n : '\n' ∉ l0) (hf : pyInt l0 = some f)
    (h1 : '=' ∉ l1) (h1n : '\n' ∉ l1) (hsk : skipsLine l1 = false)
    (hk : pyInt (pyStrip l1).dropLast = some k)
    (hv : pyInt (pyStrip l1) = some v) :
    bk_mfmc_parse (l0 ++ '\n' :: l1) = .ok (f, [(k, v)]) := by
  have hsplit : splitOnChar '\n' (l0 ++ '\n' :: l1) = [l0, l1] := by
    rw [splitOnChar_append h0n, splitOnChar_no_sep h1n]
  unfold bk_mfmc_parse
  rw [hsplit,
    show ([l0, l1] : List (List Char)).headD [] = l0 from rfl,
    show ([l0, l1] : List (List Char)).tail = [l1] from rfl,
    pyFind_not_mem h0,
    show (-1 : Int) + 1 = ((0 : Nat) : Int) from by norm_num,
    pySliceFrom_ofNat, List.drop_zero, pyIntE_of_some hf]
  simp only [exceptBind_ok]
  have hfind1 : pyFind (pyStrip l1) '=' = -1 :=
    pyFind_not_mem (fun hm => h1 (pyStrip_subset _ hm))
  rw [parseNodeLines, if_neg (by unfold skipsLine at hsk; simp [hsk]),
    hfind1,
    show (-1 : Int) + 1 = ((0 : Nat) : Int) from by norm_num,
    pySliceFrom_ofNat, List.drop_zero, pyIntE_of_some hv]
  simp only [exceptBind_ok]
  rw [pySliceTo_neg_one, pyIntE_of_some hk]
  simp only [exceptBind_ok]
  rfl

/-- Claim C5 (amended), witness: `"5\n77"` parses as flow 5 with the single
entry `7 = 77` taken from the line `"77"` that contains no `=`. -/
theorem bk_mfmc_parse_missing_eq_witness :
    bk_mfmc_parse (("5\n77").data) = .ok (5, [(7, 77)]) :=
  bk_mfmc_parse_missing_eq (("5").data) (("77").data) 5 7 77
    (by decide) (by decide) (by decide) (by decide) (by decide) (by decide)
    (by decide) (by decide)

/-- Claim C6 (code-bug evidence): with SOURCE = 0 and SINK = 1, a mapping
sending every region id of the image to SOURCE produces an all-`false` mask
and one sending every id to SINK an all-`true` mask — the exact opposite of
the claim — while the shape is preserved as claimed. -/
theorem apply_mapping_constant_mapping_inverted :
    (apply_mapping { shape := [2], data := [5, 5] }
        [(5, BK_MFMC_SOURCE_MARKER)]).1 =
      .ok { shape := [2], data := [false, false] } ∧
    (apply_mapping { shape := [2], data := [5, 5] }
        [(5, BK_MFMC_SINK_MARKER)]).1 =
      .ok { shape := [2], data := [true, true] } := ⟨rfl, rfl⟩

/-- Claim C7, counterexample: the parser accepts `"flow=-3\n-1=7"`, returning
a negative flow, a negative node id, and an affiliation value that is neither
the SOURCE nor the SINK sentinel — contradicting all three guarantees of the
claim. -/
theorem bk_mfmc_parse_accepts_invalid :
    bk_mfmc_parse (("flow=-3\n-1=7").data) = .ok (-3, [(-1, 7)]) ∧
    (-3 : Int) < 0 ∧ (-1 : Int) < 0 ∧
    (7 : Int) ≠ BK_MFMC_SOURCE_MARKER ∧ (7 : Int) ≠ BK_MFMC_SINK_MARKER :=
  ⟨rfl, by decide, by decide, by decide, by decide⟩

/-- Claim C7 (amended): the parser validates nothing about the numbers it
returns: every integer flow, node id and affiliation code — including
negative ones and codes that are neither SOURCE nor SINK — is accepted
verbatim into the result. -/
theorem bk_mfmc_parse_no_validation (f k v : Int) :
    bk_mfmc_parse (renderOutput f [Sum.inr (k, v)]) = .ok (f, [(k, v)]) := by
  rw [bk_parse_render f [Sum.inr (k, v)]
    (by intro raw hraw; simp at hraw)
    (by intro raw hraw; simp at hraw)]
  rfl

/-- Claim C8: an output may repeat a node id across entry lines; the parser
accepts it without error, and the resulting mapping associates each id with
the code of its last occurrence (the first hit of a reverse-order search). -/
theorem bk_mfmc_parse_last_write_wins (f k : Int) (es : List (Int × Int)) :
    bk_mfmc_parse (renderOutput f (es.map Sum.inr)) =
      .ok (f, foldEntries [] es) ∧
    lookupNode (foldEntries [] es) k =
      (es.reverse.find? (fun e => e.1 == k)).map Prod.snd := by
  constructor
  · rw [bk_parse_render f (es.map Sum.inr)
      (by intro raw hraw; simp at hraw)
      (by intro raw hraw; simp at hraw), entriesOf_map_inr]
  · rw [lookupNode_foldEntries es [] k]
    simp [lookupNode]

/-- Claim C9: parsing is deterministic and keeps no hidden state between
calls: re-running the parser on the same text, starting from the log left
behind by the first run, returns the identical result (the log is the only
thing a call changes). -/
theorem bk_mfmc_parse_deterministic (output : List Char) (log : List LogMsg) :
    (bk_mfmc_parse_logged output (bk_mfmc_parse_logged output log).2).1 =
      (bk_mfmc_parse_logged output log).1 := rfl

/-- Claim C10: `apply_mapping` never mutates the caller's label image: the
loop writes only into the fresh copy made by `scipy.array`, so the caller's
array is unchanged after every call, including calls aborted by the
unmapped-region-id error. -/
theorem apply_mapping_preserves_caller (img : NDImage) (m : NodeMap) :
    (apply_mapping img m).2 = img := by
  obtain ⟨sh, da⟩ := img
  simp [apply_mapping, applyLoop_caller m da da []]
